import Mathlib

/-!
Verification of the binary-only address-sanitization layer ("shadow allocator")
of `libafl_frida`, shallowly embedded from `src/libafl_frida/src/alloc.rs` and
`src/libafl_frida/src/helper.rs`.

Machine integers (`usize`) are modelled as `Nat`; the one place where the Rust
code can wrap (a `usize` subtraction in `check_shadow`) is modelled explicitly.
Shadow memory is modelled as a total byte map `Nat → Nat` (anonymous mappings
are zero-filled, hence the default value `0` for never-written shadow bytes).
Fallible operations return `Option`.
-/

namespace LibaflFrida

/-- The subset of `FuzzerOptions` (from `libafl::bolts::cli`) read by
`Allocator`: per-call cap, panic-vs-null policy, aggregate cap, and
backtrace capture. -/
structure FuzzerOptions where
  max_allocation : Nat
  max_allocation_panics : Bool
  max_total_allocation : Nat
  allocation_backtraces : Bool
  deriving Repr, DecidableEq

/-- `AllocationMetadata` from `alloc.rs`.  A `Backtrace` carries no
information the claims inspect, so a captured backtrace is `some ()`. -/
structure AllocationMetadata where
  address : Nat
  size : Nat
  actual_size : Nat
  allocation_site_backtrace : Option Unit
  release_site_backtrace : Option Unit
  freed : Bool
  is_malloc_zero : Bool
  deriving Repr, DecidableEq

/-- `AllocationMetadata::default()`: all-zero, all-false, no backtraces. -/
def AllocationMetadata.default : AllocationMetadata :=
  { address := 0, size := 0, actual_size := 0,
    allocation_site_backtrace := none, release_site_backtrace := none,
    freed := false, is_malloc_zero := false }

/-- Modelled from the spec: the `AsanError` variants of
`crate::asan::errors` (the file is not under `src/`; §3 "ErrorRegistry"
lists tagged variants `UnallocatedFree(addr, stack)`,
`DoubleFree(addr, meta, stack)`, `Leak(addr, meta)`, ...).  Backtraces are
dropped, as above. -/
inductive AsanError where
  | UnallocatedFree : Nat → AsanError
  | DoubleFree : Nat → AllocationMetadata → AsanError
  | Leak : Nat → AllocationMetadata → AsanError
  deriving Repr, DecidableEq

/-- A byte store: shadow memory as a map from (shadow) address to byte value. -/
def Mem : Type := Nat → Nat

/-- `slice::from_raw_parts_mut(start, n).fill(v)`: write byte `v` to the `n`
addresses starting at `start`. -/
def fillBytes (mem : Mem) (start n v : Nat) : Mem :=
  fun a => if start ≤ a ∧ a < start + n then v else mem a

/-- `(p as *mut u8).write(v)`: write one byte. -/
def writeByte (mem : Mem) (p v : Nat) : Mem :=
  fun a => if a = p then v else mem a

/-- The `map_to_shadow!` macro of `alloc.rs`:
`shadow_offset + ((address >> 3) & ((1 << (shadow_bit + 1)) - 1))`. -/
def map_to_shadow (shadow_offset shadow_bit address : Nat) : Nat :=
  shadow_offset + ((address >>> 3) &&& ((1 <<< (shadow_bit + 1)) - 1))

/-- `Allocator::unpoison(start, size)`: fill `size / 8` shadow bytes with
`0xFF`; when `size % 8 > 0`, write the byte `0xFF << (8 - size % 8)`
(a `u8` shift, hence the `% 256`) one past the filled run. -/
def Allocator.unpoison (mem : Mem) (start size : Nat) : Mem :=
  let m1 := fillBytes mem start (size / 8) 0xFF
  if size % 8 > 0 then
    writeByte m1 (start + size / 8) ((0xFF <<< (8 - size % 8)) % 256)
  else
    m1

/-- `Allocator::poison(start, size)`: fill `size / 8` shadow bytes with `0x00`;
when `size % 8 > 0`, write one more `0x00` byte. -/
def Allocator.poison (mem : Mem) (start size : Nat) : Mem :=
  let m1 := fillBytes mem start (size / 8) 0x00
  if size % 8 > 0 then
    writeByte m1 (start + size / 8) 0x00
  else
    m1

/-- The middle run of `check_shadow`: every one of `n` shadow bytes from
`start` equals `0xFF`.  The Rust code checks this through an
`align_to::<u128>` split (`prefix`/`aligned`/`suffix`); a `u128` chunk equals
`0xff...ff` exactly when each of its 16 bytes is `0xFF`, so the split is a
performance detail with bytewise semantics. -/
def rangeAllFF (mem : Mem) (start n : Nat) : Bool :=
  (List.range n).all (fun i => mem (start + i) == 0xFF)

/-- The shared tail of `check_shadow` (the code after the misalignment
prologue): middle run of `shadow_size` whole `0xFF` bytes starting at
`shadow_addr`, then — when `size % 8 > 0` — the trailing partial byte `b`
must satisfy `b & (size % 8) == size % 8`. -/
def check_shadow_rest (mem : Mem) (shadow_addr shadow_size size : Nat) :
    Option Bool :=
  if rangeAllFF mem shadow_addr shadow_size then
    let shadow_remainder := size % 8
    if shadow_remainder > 0 then
      some (mem (shadow_addr + shadow_size) &&& shadow_remainder
              == shadow_remainder)
    else
      some true
  else
    some false

/-- `Allocator::check_shadow(address, size)` from `alloc.rs`.
Returns `none` for the undefined case: when `address & 7 > 0`, the leading
partial-byte test passes and `size / 8 = 0`, the Rust code decrements the
`usize` local `shadow_size = size / 8` below zero — a panic in debug builds
and, in release builds, a wrapped length `2^64 - 1` handed to
`slice::from_raw_parts_mut` (undefined behaviour).  Every defined path
returns `some`. -/
def check_shadow (mem : Mem) (shadow_offset shadow_bit address size : Nat) :
    Option Bool :=
  if size = 0 then
    some true
  else
    let shadow_size := size / 8
    let shadow_addr := map_to_shadow shadow_offset shadow_bit address
    if address &&& 0x7 > 0 then
      if !(mem shadow_addr &&& (address &&& 7) == address &&& 7) then
        some false
      else if shadow_size = 0 then
        none
      else
        check_shadow_rest mem (shadow_addr + 1) (shadow_size - 1) size
    else
      check_shadow_rest mem shadow_addr shadow_size size

/-- Lookup in a `HashMap<usize, _>` modelled as an association list. -/
def assocLookup {α : Type} : List (Nat × α) → Nat → Option α
  | [], _ => none
  | kv :: rest, k => if kv.1 = k then some kv.2 else assocLookup rest k

/-- `HashMap::insert`: replace the binding of `k` when present, else add it. -/
def assocInsert {α : Type} : List (Nat × α) → Nat → α → List (Nat × α)
  | [], k, v => [(k, v)]
  | kv :: rest, k, v =>
      if kv.1 = k then (k, v) :: rest else kv :: assocInsert rest k v

/-- The `BTreeMap<usize, Vec<AllocationMetadata>>` reuse queue, modelled as an
association list kept sorted in ascending key order (the `BTreeMap`
iteration order). -/
def Queue : Type := List (Nat × List AllocationMetadata)

/-- `allocation_queue.entry(k).or_default().push(m)`: append `m` to the vector
at key `k`, inserting the key at its sorted position when absent. -/
def queuePush : Queue → Nat → AllocationMetadata → Queue
  | [], k, m => [(k, [m])]
  | (k', l) :: rest, k, m =>
      if k = k' then (k', l ++ [m]) :: rest
      else if k < k' then (k, [m]) :: (k', l) :: rest
      else (k', l) :: queuePush rest k m

/-- Observer: all metadata stored in the reuse queue under key `k`
(`BTreeMap` get; a queue built by `queuePush` keeps one entry per key). -/
def queueAt : Queue → Nat → List AllocationMetadata
  | [], _ => []
  | e :: rest, k => (if e.1 = k then e.2 else []) ++ queueAt rest k

/-- `Allocator::find_smallest_fit(size)`: walk the queue in ascending key
order; at the first key `≥ size` whose vector is non-empty, pop (`Vec::pop`
removes the last element) and return it.  Returns the popped metadata (if
any) together with the updated queue. -/
def find_smallest_fit : Queue → Nat → Option AllocationMetadata × Queue
  | [], _ => (none, [])
  | (k, l) :: rest, size =>
      if size ≤ k then
        match l.getLast? with
        | some m => (some m, (k, l.dropLast) :: rest)
        | none =>
            let r := find_smallest_fit rest size
            (r.1, (k, l) :: r.2)
      else
        let r := find_smallest_fit rest size
        (r.1, (k, l) :: r.2)

/-- The state of an `Allocator` (`alloc.rs`).  `mappings` keeps the raw
mapping base addresses and sizes (the model never unmaps, as the source
never does); `shadow_pages` bookkeeping is elided because committing shadow
pages does not change their (zero-filled) contents.  `errors` is the
process-wide `AsanErrors` registry, modelled from the spec (§3/§4.2: an
insertion-ordered queue of `AsanError`) because `asan/errors.rs` is not
under `src/`. -/
structure AllocatorState where
  options : FuzzerOptions
  page_size : Nat
  shadow_offset : Nat
  shadow_bit : Nat
  allocations : List (Nat × AllocationMetadata)
  mappings : List (Nat × Nat)
  allocation_queue : Queue
  largest_allocation : Nat
  total_allocation_size : Nat
  base_mapping_addr : Nat
  current_mapping_addr : Nat
  granularity : Nat
  shadow : Mem
  errors : List AsanError

/-- `Allocator::round_up_to_page`: `((size + page_size) / page_size) * page_size`. -/
def round_up_to_page (st : AllocatorState) (size : Nat) : Nat :=
  ((size + st.page_size) / st.page_size) * st.page_size

/-- The observable outcome of `Allocator::alloc`: a panic
(`max_allocation_panics`), a null pointer, or a user pointer. -/
inductive AllocResult where
  | panic : AllocResult
  | null : AllocResult
  | ptr : Nat → AllocResult
  deriving Repr, DecidableEq

/-- `Allocator::alloc(size, alignment)` from `alloc.rs`.  The model assumes
the OS grants every hinted `mmap` (the `Err` branch returns null in the
source); `map_shadow_for_region(start, end, false)` commits zero-filled
shadow pages and hence leaves the shadow byte map unchanged. -/
def alloc (st : AllocatorState) (size _alignment : Nat) :
    AllocResult × AllocatorState :=
  let is_malloc_zero := size = 0
  let size := if size = 0 then 16 else size
  if size > st.options.max_allocation then
    if st.options.max_allocation_panics then (.panic, st) else (.null, st)
  else
    let rounded_up_size := round_up_to_page st size + 2 * st.page_size
    if st.total_allocation_size + rounded_up_size >
        st.options.max_total_allocation then
      (.null, st)
    else
      let st := { st with
        total_allocation_size := st.total_allocation_size + rounded_up_size }
      let step :=
        match find_smallest_fit st.allocation_queue rounded_up_size with
        | (some m, q') =>
            let m := { m with
              is_malloc_zero := is_malloc_zero
              size := size
              allocation_site_backtrace :=
                if st.options.allocation_backtraces then some ()
                else m.allocation_site_backtrace }
            (m, { st with allocation_queue := q' })
        | (none, q') =>
            let address := st.current_mapping_addr
            let st := { st with
              allocation_queue := q'
              current_mapping_addr := st.current_mapping_addr +
                ((rounded_up_size + st.granularity) / st.granularity) *
                  st.granularity
              mappings := assocInsert st.mappings address rounded_up_size }
            -- `AllocationMetadata { address, size, actual_size, ..Default::default() }`:
            -- note the fresh path leaves `is_malloc_zero` at its default `false`.
            let m := { AllocationMetadata.default with
              address := address, size := size,
              actual_size := rounded_up_size,
              allocation_site_backtrace :=
                if st.options.allocation_backtraces then some () else none }
            (m, st)
      let metadata := step.1
      let st := step.2
      let st := { st with
        largest_allocation := max st.largest_allocation metadata.actual_size
        shadow := Allocator.unpoison st.shadow
          (map_to_shadow st.shadow_offset st.shadow_bit
            (metadata.address + st.page_size))
          size }
      let address := metadata.address + st.page_size
      (.ptr address,
       { st with allocations := assocInsert st.allocations address metadata })

/-- The field updates `release` applies to a found record: `freed = true`
and, when configured, a release-site backtrace. -/
def releasedMeta (st : AllocatorState) (metadata : AllocationMetadata) :
    AllocationMetadata :=
  { metadata with
    freed := true
    release_site_backtrace :=
      if st.options.allocation_backtraces then some ()
      else metadata.release_site_backtrace }

/-- `Allocator::release(ptr)` from `alloc.rs`. -/
def release (st : AllocatorState) (ptr : Nat) : AllocatorState :=
  match assocLookup st.allocations ptr with
  | none =>
      if ptr ≠ 0 then
        { st with errors := st.errors ++ [.UnallocatedFree ptr] }
      else
        st
  | some metadata =>
      let st :=
        if metadata.freed then
          { st with errors := st.errors ++ [.DoubleFree ptr metadata] }
        else
          st
      let shadow_mapping_start :=
        map_to_shadow st.shadow_offset st.shadow_bit ptr
      { st with
        allocations := assocInsert st.allocations ptr (releasedMeta st metadata)
        shadow := Allocator.poison st.shadow shadow_mapping_start metadata.size }

/-- The field resets applied to a freed record as `reset()` migrates it into
the reuse queue: `size = 0`, `freed = false`, both backtraces cleared. -/
def resetQueueMeta (m : AllocationMetadata) : AllocationMetadata :=
  { m with
    size := 0
    freed := false
    allocation_site_backtrace := none
    release_site_backtrace := none }

/-- `Allocator::reset()` from `alloc.rs`: drain the live index; each freed
record has its shadow poisoned at its key address and is pushed (fields
reset) onto the reuse queue at key `actual_size`; non-freed records are
re-inserted at key `address + page_size`; the total-allocation counter is
zeroed.  The source interleaves the per-record poison and queue push in one
drain loop; the two folds below process the same records in the same order
and touch disjoint state, so the result is identical. -/
def reset (st : AllocatorState) : AllocatorState :=
  let freed := st.allocations.filter (fun kv => kv.2.freed)
  let kept := st.allocations.filter (fun kv => !kv.2.freed)
  let shadow' := freed.foldl
    (fun mem kv =>
      Allocator.poison mem
        (map_to_shadow st.shadow_offset st.shadow_bit kv.1) kv.2.size)
    st.shadow
  let queue' := freed.foldl
    (fun q kv => queuePush q kv.2.actual_size (resetQueueMeta kv.2))
    st.allocation_queue
  let allocs' := kept.foldl
    (fun l kv => assocInsert l (kv.2.address + st.page_size) kv.2) []
  { st with
    allocations := allocs'
    allocation_queue := queue'
    shadow := shadow'
    total_allocation_size := 0 }

/-- `usize as i64`: two's-complement reinterpretation of the low 64 bits. -/
def i64val (n : Nat) : Int :=
  if n % 2 ^ 64 < 2 ^ 63 then ((n % 2 ^ 64 : Nat) : Int)
  else ((n % 2 ^ 64 : Nat) : Int) - 2 ^ 64

/-- `i64::abs`.  (`i64::MIN.abs()` panics in Rust; that corner needs two
addresses `≥ 2^63` apart and is excluded by hypothesis in the theorems that
reason about distances.) -/
def i64abs (x : Int) : Int := if x < 0 then -x else x

/-- The distance `(ptr as i64 - address as i64).abs()` that `find_metadata`
minimises. -/
def addrDist (ptr a : Nat) : Int := i64abs (i64val ptr - i64val a)

/-- Stable insertion into an address-sorted list: the head of the body of
`sortByAddress`. -/
def insertByAddress (m : AllocationMetadata) :
    List AllocationMetadata → List AllocationMetadata
  | [] => [m]
  | x :: xs =>
      if m.address ≤ x.address then m :: x :: xs else x :: insertByAddress m xs

/-- `metadatas.sort_by(|a, b| a.address.cmp(&b.address))`: a stable
ascending sort by `address`, modelled as insertion sort (
`slice::sort_by` is stable). -/
def sortByAddress : List AllocationMetadata → List AllocationMetadata
  | [] => []
  | x :: xs => insertByAddress x (sortByAddress xs)

/-- One iteration of the `find_metadata` scan.  The accumulator is
`(offset_to_closest, closest)`. -/
def find_metadata_step (ptr hint_base : Nat)
    (acc : Int × Option AllocationMetadata) (m : AllocationMetadata) :
    Int × Option AllocationMetadata :=
  let new_offset : Int :=
    if hint_base = m.address then
      i64abs (i64val ptr - i64val m.address)
    else
      min acc.1 (i64abs (i64val ptr - i64val m.address))
  if new_offset < acc.1 then (new_offset, some m) else acc

/-- `Allocator::find_metadata(ptr, hint_base)` from `alloc.rs`: sort the
tracked records by address, then scan with `offset_to_closest` starting at
`i64::max_value()`, keeping the record that strictly improves the
(hint-adjusted) offset. -/
def find_metadata (st : AllocatorState) (ptr hint_base : Nat) :
    Option AllocationMetadata :=
  let metadatas := sortByAddress (st.allocations.map (fun kv => kv.2))
  (metadatas.foldl (find_metadata_step ptr hint_base)
    ((2 : Int) ^ 63 - 1, none)).2

/-- The state of a fresh `Allocator` (`Allocator::new` after a successful
shadow probe with the given `shadow_bit`): empty tables,
`shadow_offset = 1 << shadow_bit`,
`base_mapping_addr = current_mapping_addr = 2 * (1 << shadow_bit)`, and a
zero-filled (fully poisoned) shadow, since reserved-but-uncommitted
anonymous pages read as zero. -/
def initState (options : FuzzerOptions)
    (page_size granularity shadow_bit : Nat) : AllocatorState :=
  { options := options
    page_size := page_size
    shadow_offset := 1 <<< shadow_bit
    shadow_bit := shadow_bit
    allocations := []
    mappings := []
    allocation_queue := []
    largest_allocation := 0
    total_allocation_size := 0
    base_mapping_addr := (1 <<< shadow_bit) + (1 <<< shadow_bit)
    current_mapping_addr := (1 <<< shadow_bit) + (1 <<< shadow_bit)
    granularity := granularity
    shadow := fun _ => 0
    errors := [] }

/-- Well-formedness of the live index, maintained by the source: every
binding's key is the user pointer `metadata.address + page_size`, and keys
are distinct (a `HashMap` invariant). -/
def WF (st : AllocatorState) : Prop :=
  (∀ kv ∈ st.allocations, kv.1 = kv.2.address + st.page_size) ∧
    st.allocations.Pairwise (fun a b => a.1 ≠ b.1)

/-- A module as `FridaInstrumentationHelper::new` sees it (`helper.rs`):
its range's base address and size, and its path. -/
structure ModuleInfo where
  base : Nat
  size : Nat
  path : String
  deriving Repr, DecidableEq

/-- A `RangeMap<usize, (u16, String)>` modelled by its lookup function
(`contains_key`/`get` semantics; the coalesced interval representation is
irrelevant to lookups). -/
def RangesMap : Type := Nat → Option (Nat × String)

/-- `ranges.insert(lo..hi, v)`. -/
def rmInsert (m : RangesMap) (lo hi : Nat) (v : Nat × String) : RangesMap :=
  fun a => if lo ≤ a ∧ a < hi then some v else m a

/-- `ranges.remove(lo..hi)`. -/
def rmRemove (m : RangesMap) (lo hi : Nat) : RangesMap :=
  fun a => if lo ≤ a ∧ a < hi then none else m a

/-- The insertion loop of `helper.rs` lines 205–210:
`for (i, module) in module_map.values().iter().enumerate()` insert
`start..start + size ↦ (i as u16, path)`. -/
def insertModules (m : RangesMap) : List ModuleInfo → Nat → RangesMap
  | [], _ => m
  | md :: rest, i =>
      insertModules
        (rmInsert m md.base (md.base + md.size) (i % 65536, md.path))
        rest (i + 1)

/-- The removal loop of `helper.rs` lines 211–218: each `dont_instrument`
entry, resolved through `ModuleDetails::with_name` to `(lib_start, offset)`,
removes `(lib_start + offset)..(lib_start + offset + 4)`. -/
def removeWindows (m : RangesMap) : List (Nat × Nat) → RangesMap
  | [] => m
  | w :: rest =>
      removeWindows (rmRemove m (w.1 + w.2) (w.1 + w.2 + 4)) rest

/-- The range map as built by `FridaInstrumentationHelper::new` with
instrumentation enabled: all module ranges inserted, then the
`dont_instrument` windows removed. -/
def buildRanges (modules : List ModuleInfo) (dont : List (Nat × Nat)) :
    RangesMap :=
  removeWindows (insertModules (fun _ => none) modules 0) dont

/-- The range-map part of `FridaInstrumentationHelper::new` (instrumentation
enabled, i.e. `cmplog || asan || !disable_coverage`): build the map, then
`assert!(!ranges.contains_key(&(Self::new as usize)))`.  `modules` is the
resolved module map of the harness plus `libs_to_instrument`; `newAddr` is
`Self::new as usize`.  Returns `none` when the assertion panics. -/
def helper_new (modules : List ModuleInfo) (dont : List (Nat × Nat))
    (newAddr : Nat) : Option RangesMap :=
  let ranges := buildRanges modules dont
  if (ranges newAddr).isNone then some ranges else none

/-- Written from the words of claim C2 (spec §4 "Contract — `check_shadow`"),
for comparison with the source-derived `check_shadow`: size 0 is valid;
otherwise (i) the possibly-misaligned leading shadow byte's partial mask
must equal `addr & 7`, (ii) every whole shadow byte of the middle run must
equal `0xFF`, and (iii) the trailing partial shadow byte must have the low
`size mod 8` bits set. -/
def check_shadow_claimed (mem : Mem) (shadow_offset shadow_bit address size :
    Nat) : Bool :=
  if size = 0 then true
  else
    let sa := map_to_shadow shadow_offset shadow_bit address
    let lo := if address % 8 = 0 then 0 else 1
    (decide (address % 8 = 0) ||
      (mem sa &&& (address % 8) == address % 8)) &&
    rangeAllFF mem (sa + lo) (size / 8 - lo) &&
    (decide (size % 8 = 0) ||
      (mem (sa + size / 8) &&& ((1 <<< (size % 8)) - 1)
        == (1 <<< (size % 8)) - 1))

/-- The amended reading of claim C2, differing from `check_shadow_claimed`
only in (iii): the trailing partial byte `b` must satisfy
`b & (size mod 8) = size mod 8` — the bits of the *value* `size mod 8`,
which is what the source tests — rather than the low `size mod 8` bits. -/
def check_shadow_flat (mem : Mem) (shadow_offset shadow_bit address size :
    Nat) : Bool :=
  if size = 0 then true
  else
    let sa := map_to_shadow shadow_offset shadow_bit address
    let lo := if address % 8 = 0 then 0 else 1
    (decide (address % 8 = 0) ||
      (mem sa &&& (address % 8) == address % 8)) &&
    rangeAllFF mem (sa + lo) (size / 8 - lo) &&
    (decide (size % 8 = 0) ||
      (mem (sa + size / 8) &&& (size % 8) == size % 8))

/-- Concrete options for the executable scenarios: generous caps
(`max_allocation = 2^40`, `max_total_allocation = 2^50`), null-on-overflow,
no backtrace capture. -/
def optsA : FuzzerOptions :=
  { max_allocation := 2 ^ 40
    max_allocation_panics := false
    max_total_allocation := 2 ^ 50
    allocation_backtraces := false }

/-- A fresh allocator on a 4096-byte-page system (allocation granularity
4096) with `shadow_bit = 36`. -/
def stA : AllocatorState := initState optsA 4096 4096 36

/-- Shadow memory holding the single byte `0x02` at `map_to_shadow(0)` and
`0x00` everywhere else. -/
def memC2 : Mem := writeByte (fun _ => 0) (2 ^ 36) 2

/-- A concrete live record: 8 requested bytes at user pointer
`2^37 + 4096`. -/
def mW : AllocationMetadata :=
  { AllocationMetadata.default with address := 2 ^ 37, size := 8, actual_size := 12288 }

/-- The fresh allocator `stA` tracking the single live record `mW`. -/
def stW : AllocatorState := { stA with allocations := [(2 ^ 37 + 4096, mW)] }

/-- A freed record: 8 requested bytes at user pointer `2^37 + 4096`. -/
def mV : AllocationMetadata :=
  { AllocationMetadata.default with
    address := 2 ^ 37, size := 8, actual_size := 12288, freed := true }

/-- A live (never freed) record at user pointer `2^37 + 20480`. -/
def mW16 : AllocationMetadata :=
  { AllocationMetadata.default with
    address := 2 ^ 37 + 16384, size := 16, actual_size := 12288 }

/-- The fresh allocator `stA` tracking one freed and one live record. -/
def stV : AllocatorState :=
  { stA with allocations := [(2 ^ 37 + 4096, mV), (2 ^ 37 + 20480, mW16)] }

/-- A record at address 1000 (for the `find_metadata` scenarios). -/
def mA8 : AllocationMetadata :=
  { AllocationMetadata.default with address := 1000, size := 8, actual_size := 12288 }

/-- A record at address 2000 (for the `find_metadata` scenarios). -/
def mB8 : AllocationMetadata :=
  { AllocationMetadata.default with address := 2000, size := 8, actual_size := 12288 }

/-- An allocator tracking the records at addresses 1000 and 2000. -/
def stC8 : AllocatorState :=
  { stA with allocations := [(5096, mA8), (6096, mB8)] }

/-- The record created by `alloc(s)` on the fresh allocator `stA`:
raw base `2^37`, `actual_size = round_up_to_page(s) + 2 pages`. -/
def c6Meta (s : Nat) : AllocationMetadata :=
  { AllocationMetadata.default with
    address := 2 ^ 37
    size := s
    actual_size := (s / 4096 + 1) * 4096 + 8192 }

/-- The allocator state after `alloc(s)` on `stA`. -/
def c6St1 (s : Nat) : AllocatorState :=
  { stA with
    total_allocation_size := (s / 4096 + 1) * 4096 + 8192
    mappings := [(2 ^ 37, (s / 4096 + 1) * 4096 + 8192)]
    current_mapping_addr := 2 ^ 37 +
      (((s / 4096 + 1) * 4096 + 8192) / 4096 + 1) * 4096
    largest_allocation := (s / 4096 + 1) * 4096 + 8192
    shadow := Allocator.unpoison stA.shadow
      (map_to_shadow stA.shadow_offset stA.shadow_bit (2 ^ 37 + 4096)) s
    allocations := [(2 ^ 37 + 4096, c6Meta s)] }

/-- `c6Meta s` after `release`. -/
def c6MetaF (s : Nat) : AllocationMetadata := { c6Meta s with freed := true }

/-- The allocator state after `alloc(s); release(p)` on `stA`. -/
def c6St2 (s : Nat) : AllocatorState :=
  { c6St1 s with
    allocations := [(2 ^ 37 + 4096, c6MetaF s)]
    shadow := Allocator.poison (c6St1 s).shadow
      (map_to_shadow stA.shadow_offset stA.shadow_bit (2 ^ 37 + 4096)) s }

/-- `c6Meta s` as migrated into the reuse queue by `reset`. -/
def c6MetaR (s : Nat) : AllocationMetadata :=
  { AllocationMetadata.default with
    address := 2 ^ 37
    size := 0
    actual_size := (s / 4096 + 1) * 4096 + 8192 }

/-- The allocator state after `alloc(s); release(p); reset()` on `stA`. -/
def c6St3 (s : Nat) : AllocatorState :=
  { c6St2 s with
    allocations := []
    allocation_queue := [((s / 4096 + 1) * 4096 + 8192, [c6MetaR s])]
    shadow := Allocator.poison (c6St2 s).shadow
      (map_to_shadow stA.shadow_offset stA.shadow_bit (2 ^ 37 + 4096)) s
    total_allocation_size := 0 }

end LibaflFrida

namespace LibaflFrida

/-- C1 (code bug): after `alloc(1)` on a fresh allocator the returned user
pointer is `p = 2^37 + 4096`, and the boundary probes `check_shadow(p-1, 1)`
and `check_shadow(p+1, 1)` return `false` exactly as the claim states — but
`check_shadow(p, 1)` also returns `false`, where the claim (and the spec's
`alloc` postcondition) require `true`.  `unpoison` encodes the one-byte tail
as the shadow byte `0x80 = 0xFF << 7`, while `check_shadow` accepts a
trailing byte `b` only when `b & 1 = 1`, so every allocation whose size is
not a multiple of 8 fails its own shadow check. -/
theorem claim_C1_alloc_one_fails_own_shadow_check :
    (alloc stA 1 8).1 = .ptr (2 ^ 37 + 4096) ∧
    check_shadow (alloc stA 1 8).2.shadow (2 ^ 36) 36 (2 ^ 37 + 4096) 1 =
      some false ∧
    check_shadow (alloc stA 1 8).2.shadow (2 ^ 36) 36 (2 ^ 37 + 4096 - 1) 1 =
      some false ∧
    check_shadow (alloc stA 1 8).2.shadow (2 ^ 36) 36 (2 ^ 37 + 4096 + 1) 1 =
      some false :=
  ⟨rfl, rfl, rfl, rfl⟩

/-- C7 (code bug): `alloc(0)` on a fresh allocator is served as a 16-byte
allocation and returns a non-null pointer, but the stored record's
`is_malloc_zero` is `false`: the fresh-mapping path builds its metadata with
`..AllocationMetadata::default()` and never copies the local
`is_malloc_zero` flag (only the reuse path does). -/
theorem claim_C7_alloc_zero_record_not_flagged :
    (alloc stA 0 8).1 = .ptr (2 ^ 37 + 4096) ∧
    ((assocLookup (alloc stA 0 8).2.allocations (2 ^ 37 + 4096)).map
      (fun m => (m.size, m.is_malloc_zero))) = some (16, false) :=
  ⟨rfl, rfl⟩

/-- C10 (code bug): on a fully unpoisoned shadow, `check_shadow(1, 1)` — a
misaligned address whose leading partial-byte test passes, with
`size / 8 = 0` — reaches the `usize` decrement `shadow_size -= 1` with
`shadow_size = 0`, which wraps below zero (a panic in debug builds; in
release builds the wrapped length `2^64 - 1` reaches
`slice::from_raw_parts_mut`).  The model returns `none` for exactly this
undefined case, refuting the claim that the decrement never wraps. -/
theorem claim_C10_check_shadow_decrement_wraps :
    check_shadow (fun _ => 0xFF) (2 ^ 36) 36 1 1 = none :=
  rfl

/-- C3 (counterexample): with `shadow_bit = 44` — a legitimate probe
candidate (`maxbit - 4`) when `userspace_max < 2^48` — the userspace address
`A1 = 2^44 + 2^44 / 7 = 20105355479332` is a fixed point of
`map_to_shadow`, refuting `map_to_shadow(A) ≠ A`; and the userspace address
`A2 = 2^47` maps to `shadow_offset + 2^44`, outside the claimed interval
`[shadow_offset, shadow_offset + 2^44)` (the mask
`(1 << (shadow_bit+1)) - 1` makes the image twice as wide). -/
theorem claim_C3_counterexample :
    (20105355479332 : Nat) < 2 ^ 48 ∧
    map_to_shadow (2 ^ 44) 44 20105355479332 = 20105355479332 ∧
    (2 ^ 47 : Nat) < 2 ^ 48 ∧
    ¬ map_to_shadow (2 ^ 44) 44 (2 ^ 47) < 2 ^ 44 + 2 ^ 44 := by
  refine ⟨by norm_num, by decide, by norm_num, by decide⟩

/-- C3 (amended): unconditionally, `map_to_shadow(A)` lies in
`[shadow_offset, shadow_offset + (1 << (shadow_bit + 1)))` — twice the
claimed interval; and whenever the address `A` lies below `2^shadow_bit`
(in particular whenever the first probe candidate `maxbit` became the
shadow bit, which puts all of userspace below the shadow base),
`map_to_shadow(A)` lies in the claimed interval
`[shadow_offset, shadow_offset + (1 << shadow_bit))` and differs from `A`. -/
theorem claim_C3_amended (sb A : Nat) :
    (2 ^ sb ≤ map_to_shadow (2 ^ sb) sb A ∧
      map_to_shadow (2 ^ sb) sb A < 2 ^ sb + 2 ^ (sb + 1)) ∧
    (A < 2 ^ sb →
      map_to_shadow (2 ^ sb) sb A < 2 ^ sb + 2 ^ sb ∧
      map_to_shadow (2 ^ sb) sb A ≠ A) := by
  have hshift : (1 <<< (sb + 1) : Nat) = 2 ^ (sb + 1) := by
    simp [Nat.shiftLeft_eq]
  have hmask : (A >>> 3) &&& ((1 <<< (sb + 1)) - 1) ≤ 2 ^ (sb + 1) - 1 := by
    rw [hshift]; exact Nat.and_le_right
  have hleft : (A >>> 3) &&& ((1 <<< (sb + 1)) - 1) ≤ A >>> 3 :=
    Nat.and_le_left
  have hdiv : A >>> 3 = A / 8 := by
    simp [Nat.shiftRight_eq_div_pow]
  have hpow : 0 < 2 ^ (sb + 1) := Nat.pos_pow_of_pos _ (by omega)
  unfold map_to_shadow
  refine ⟨⟨Nat.le_add_right _ _, by omega⟩, fun hA => ⟨?_, ?_⟩⟩
  · have : A / 8 ≤ A := Nat.div_le_self _ _
    omega
  · have : A / 8 ≤ A := Nat.div_le_self _ _
    omega

/-- Witness for `claim_C3_amended` at `sb = 44`, `A = 5`. -/
theorem claim_C3_amended_witness :
    (5 : Nat) < 2 ^ 44 ∧
    map_to_shadow (2 ^ 44) 44 5 < 2 ^ 44 + 2 ^ 44 ∧
    map_to_shadow (2 ^ 44) 44 5 ≠ 5 := by
  have h5 : (5 : Nat) < 2 ^ 44 := by norm_num
  exact ⟨h5, ((claim_C3_amended 44 5).2 h5).1, ((claim_C3_amended 44 5).2 h5).2⟩

/-- C2 (counterexample): with the trailing shadow byte `0x02`, an aligned
address and `size = 2`, the source's `check_shadow` accepts
(`0x02 & 2 = 2`), but the claim's condition (iii) — the low `size mod 8`
bits set, i.e. `b & 3 = 3` — rejects.  So `check_shadow` does not return
true exactly when the claimed condition holds. -/
theorem claim_C2_counterexample :
    check_shadow memC2 (2 ^ 36) 36 0 2 = some true ∧
    check_shadow_claimed memC2 (2 ^ 36) 36 0 2 = false :=
  ⟨rfl, rfl⟩

/-- C2 (amended): whenever the evaluation is defined — `addr` 8-byte
aligned, or `size ≥ 8` (otherwise the `size / 8` decrement underflows) —
`check_shadow(addr, size)` returns true exactly when: `size = 0`; or (i)
the possibly-misaligned leading shadow byte `b` satisfies
`b & (addr & 7) = addr & 7`, (ii) every whole shadow byte of the middle run
equals `0xFF`, and (iii) the trailing partial shadow byte `b` satisfies
`b & (size mod 8) = size mod 8` — the bits of the *value* `size mod 8`, not
the low `size mod 8` bits claimed. -/
theorem claim_C2_amended (mem : Mem) (so sb address size : Nat)
    (h : address % 8 = 0 ∨ 8 ≤ size) :
    check_shadow mem so sb address size =
      some (check_shadow_flat mem so sb address size) := by
  have hand : address &&& 7 = address % 8 := Nat.and_pow_two_sub_one_eq_mod address 3
  unfold check_shadow check_shadow_flat check_shadow_rest
  by_cases h0 : size = 0
  · simp [h0]
  · simp only [h0, if_false]
    by_cases ha : address % 8 = 0
    · have hq : ¬ (address &&& 0x7 > 0) := by rw [hand]; omega
      simp only [hq, if_false, ha, decide_True, Bool.true_or, if_pos rfl,
        Nat.add_zero, Nat.sub_zero, Bool.true_and]
      by_cases hr : rangeAllFF mem (map_to_shadow so sb address) (size / 8) = true
      · simp only [hr, if_true, Bool.true_and]
        by_cases hrem : size % 8 = 0
        · simp [hrem, hr]
        · simp [hrem, Nat.pos_of_ne_zero hrem, hr]
      · simp only [Bool.not_eq_true] at hr
        simp [hr]
    · have h8 : 8 ≤ size := h.resolve_left ha
      have hq : address &&& 0x7 > 0 := by rw [hand]; omega
      have hdiv : 1 ≤ size / 8 := (Nat.one_le_div_iff (by omega)).2 h8
      have hsz : ¬ (size / 8 = 0) := by omega
      have haddr : map_to_shadow so sb address + 1 + (size / 8 - 1) =
          map_to_shadow so sb address + size / 8 := by omega
      rw [if_pos hq, hand, if_neg ha]
      simp only [ha, decide_False, Bool.false_or]
      cases hlead : (mem (map_to_shadow so sb address) &&& (address % 8) == address % 8) with
      | false => simp [hlead]
      | true =>
        simp only [hlead, Bool.not_true, if_false, if_neg hsz, haddr, Bool.true_and]
        by_cases hr : rangeAllFF mem (map_to_shadow so sb address + 1) (size / 8 - 1) = true
        · simp only [hr, if_true, Bool.true_and]
          by_cases hrem : size % 8 = 0
          · simp [hrem, hr]
          · simp [hrem, Nat.pos_of_ne_zero hrem, hr]
        · simp only [Bool.not_eq_true] at hr
          simp [hr]

/-- Witness for `claim_C2_amended`: a fully unpoisoned shadow, aligned
address, `size = 3`. -/
theorem claim_C2_amended_witness :
    check_shadow (fun _ => 0xFF) (2 ^ 36) 36 0 3 =
      some (check_shadow_flat (fun _ => 0xFF) (2 ^ 36) 36 0 3) :=
  claim_C2_amended (fun _ => 0xFF) (2 ^ 36) 36 0 3 (Or.inl (by decide))

/-- Helper: pointwise effect of the `dont_instrument` removal loop. -/
theorem removeWindows_apply (ws : List (Nat × Nat)) (m : RangesMap) (a : Nat) :
    removeWindows m ws a =
      if ws.any (fun w => decide (w.1 + w.2 ≤ a) && decide (a < w.1 + w.2 + 4))
      then none else m a := by
  induction ws generalizing m with
  | nil => simp [removeWindows]
  | cons w rest ih =>
    simp only [removeWindows, List.any_cons, ih, rmRemove]
    by_cases hw : w.1 + w.2 ≤ a ∧ a < w.1 + w.2 + 4
    · have hd : (decide (w.1 + w.2 ≤ a) && decide (a < w.1 + w.2 + 4)) = true := by
        rw [← Bool.decide_and]; exact decide_eq_true hw
      have hcond : (decide (w.1 + w.2 ≤ a) && decide (a < w.1 + w.2 + 4) ||
          rest.any (fun w => decide (w.1 + w.2 ≤ a) && decide (a < w.1 + w.2 + 4))) = true := by
        rw [hd]; exact Bool.true_or _
      rw [if_pos hw]
      simp only [hcond]
      simp
    · have hd : (decide (w.1 + w.2 ≤ a) && decide (a < w.1 + w.2 + 4)) = false := by
        rw [← Bool.decide_and]; exact decide_eq_false hw
      have hcond : (decide (w.1 + w.2 ≤ a) && decide (a < w.1 + w.2 + 4) ||
          rest.any (fun w => decide (w.1 + w.2 ≤ a) && decide (a < w.1 + w.2 + 4))) =
          rest.any (fun w => decide (w.1 + w.2 ≤ a) && decide (a < w.1 + w.2 + 4)) := by
        rw [hd]; exact Bool.false_or _
      rw [if_neg hw]
      simp only [hcond]

/-- Helper: an address has a binding after the module-insertion loop exactly
when it had one before or some module range covers it. -/
theorem insertModules_isSome (mods : List ModuleInfo) (m : RangesMap) (i a : Nat) :
    ((insertModules m mods i) a).isSome =
      ((m a).isSome ||
        mods.any (fun md => decide (md.base ≤ a) && decide (a < md.base + md.size))) := by
  induction mods generalizing m i with
  | nil => simp [insertModules]
  | cons md rest ih =>
    simp only [insertModules, ih, rmInsert, List.any_cons]
    by_cases hw : md.base ≤ a ∧ a < md.base + md.size
    · have hd : (decide (md.base ≤ a) && decide (a < md.base + md.size)) = true := by
        rw [← Bool.decide_and]; exact decide_eq_true hw
      rw [if_pos hw]
      simp only [hd]
      simp
    · have hd : (decide (md.base ≤ a) && decide (a < md.base + md.size)) = false := by
        rw [← Bool.decide_and]; exact decide_eq_false hw
      have hcond : ((m a).isSome ||
          (decide (md.base ≤ a) && decide (a < md.base + md.size) ||
            rest.any (fun md => decide (md.base ≤ a) && decide (a < md.base + md.size)))) =
          ((m a).isSome ||
            rest.any (fun md => decide (md.base ≤ a) && decide (a < md.base + md.size))) := by
        rw [hd]; rw [Bool.false_or]
      rw [if_neg hw]
      simp only [hcond]

/-- Helper: membership in the constructed range map is exactly "covered by
some module range and by no `dont_instrument` window". -/
theorem buildRanges_isSome (mods : List ModuleInfo) (dont : List (Nat × Nat)) (a : Nat) :
    ((buildRanges mods dont) a).isSome =
      (mods.any (fun md => decide (md.base ≤ a) && decide (a < md.base + md.size)) &&
        !(dont.any (fun w => decide (w.1 + w.2 ≤ a) && decide (a < w.1 + w.2 + 4)))) := by
  unfold buildRanges
  rw [removeWindows_apply]
  cases hw : dont.any (fun w => decide (w.1 + w.2 ≤ a) && decide (a < w.1 + w.2 + 4)) with
  | true => simp [hw]
  | false => simp [hw, insertModules_isSome]

/-- C9 (amended): after construction with instrumentation enabled the range
map contains exactly the addresses of the harness's and requested modules'
ranges minus the 4-byte `dont_instrument` windows (module base plus offset);
and the construction asserts only that the single address of
`FridaInstrumentationHelper::new` is absent from the map — when construction
succeeds, that one address is not in the map. -/
theorem claim_C9_amended (mods : List ModuleInfo) (dont : List (Nat × Nat))
    (a newAddr : Nat) :
    ((buildRanges mods dont) a).isSome =
      (mods.any (fun md => decide (md.base ≤ a) && decide (a < md.base + md.size)) &&
        !(dont.any (fun w => decide (w.1 + w.2 ≤ a) && decide (a < w.1 + w.2 + 4)))) ∧
    (∀ rm, helper_new mods dont newAddr = some rm → rm newAddr = none) := by
  refine ⟨buildRanges_isSome mods dont a, fun rm hrm => ?_⟩
  unfold helper_new at hrm
  by_cases hn : ((buildRanges mods dont) newAddr).isNone = true
  · rw [if_pos hn] at hrm
    cases hrm
    exact Option.isNone_iff_eq_none.mp hn
  · rw [if_neg hn] at hrm
    cases hrm

/-- Witness for `claim_C9_amended`: one module `[100, 104)` with a window
punched at `[102, 106)`; address `103` is absent, and construction with
`newAddr = 0` succeeds with `0` absent. -/
theorem claim_C9_amended_witness :
    ((buildRanges [⟨100, 4, "m"⟩] [(100, 2)]) 103).isSome = false ∧
    (buildRanges [⟨100, 4, "m"⟩] [(100, 2)]) 0 = none := by
  constructor
  · exact (claim_C9_amended [⟨100, 4, "m"⟩] [(100, 2)] 103 0).1.trans (by decide)
  · exact (claim_C9_amended [⟨100, 4, "m"⟩] [(100, 2)] 103 0).2
      (buildRanges [⟨100, 4, "m"⟩] [(100, 2)]) rfl

/-- C9 (counterexample): the construction-time assertion checks only the
single address `Self::new as usize`.  With `newAddr = 5000` and an
instrumented module whose range `[5004, 5008)` covers other fuzzer code
adjacent to `new` (e.g. the rest of the same function), construction
succeeds — the assert passes — yet the fuzzer-code address `5004` is in the
map, refuting "no address of the fuzzer's own code appears in the map". -/
theorem claim_C9_counterexample :
    (helper_new [⟨5004, 4, "m"⟩] [] 5000).isSome = true ∧
    ((buildRanges [⟨5004, 4, "m"⟩] []) 5004).isSome = true :=
  ⟨rfl, rfl⟩

/-- Helper: looking up the key just inserted yields the inserted value. -/
theorem assocLookup_assocInsert_self {α : Type} (l : List (Nat × α)) (k : Nat) (v : α) :
    assocLookup (assocInsert l k v) k = some v := by
  induction l with
  | nil => simp [assocInsert, assocLookup]
  | cons kv rest ih =>
    by_cases h : kv.1 = k
    · simp [assocInsert, h, assocLookup]
    · simp [assocInsert, h, assocLookup, ih]

/-- Helper: a successful lookup is a member. -/
theorem assocLookup_mem {α : Type} {l : List (Nat × α)} {k : Nat} {v : α}
    (h : assocLookup l k = some v) : (k, v) ∈ l := by
  induction l with
  | nil => simp [assocLookup] at h
  | cons kv rest ih =>
    by_cases hk : kv.1 = k
    · simp [assocLookup, hk] at h
      subst hk
      subst h
      exact List.mem_cons_self _ _
    · simp [assocLookup, hk] at h
      exact List.mem_cons_of_mem _ (ih h)

/-- Helper: a member of `assocInsert l k v` is the new binding or an old one. -/
theorem mem_assocInsert {α : Type} {l : List (Nat × α)} {k : Nat} {v : α}
    {kv : Nat × α} (h : kv ∈ assocInsert l k v) : kv = (k, v) ∨ kv ∈ l := by
  induction l with
  | nil => simpa [assocInsert] using h
  | cons kv' rest ih =>
    by_cases hk : kv'.1 = k
    · simp only [assocInsert, if_pos hk] at h
      rcases List.mem_cons.mp h with h | h
      · exact Or.inl h
      · exact Or.inr (List.mem_cons_of_mem _ h)
    · simp only [assocInsert, if_neg hk] at h
      rcases List.mem_cons.mp h with h | h
      · exact Or.inr (h ▸ List.mem_cons_self _ _)
      · rcases ih h with h | h
        · exact Or.inl h
        · exact Or.inr (List.mem_cons_of_mem _ h)

/-- Helper: `assocInsert` preserves distinctness of keys. -/
theorem pairwise_assocInsert {α : Type} {l : List (Nat × α)} (k : Nat) (v : α)
    (h : l.Pairwise (fun a b => a.1 ≠ b.1)) :
    (assocInsert l k v).Pairwise (fun a b => a.1 ≠ b.1) := by
  induction l with
  | nil => simp [assocInsert]
  | cons kv' rest ih =>
    rcases List.pairwise_cons.mp h with ⟨hhead, hrest⟩
    by_cases hk : kv'.1 = k
    · simp only [assocInsert, if_pos hk]
      exact List.pairwise_cons.mpr ⟨fun b hb => hk ▸ hhead b hb, hrest⟩
    · simp only [assocInsert, if_neg hk]
      refine List.pairwise_cons.mpr ⟨fun b hb => ?_, ih hrest⟩
      rcases mem_assocInsert hb with rfl | hb
      · exact hk
      · exact hhead b hb

/-- Helper: under distinct keys, membership determines the lookup. -/
theorem assocLookup_of_mem_pairwise {α : Type} {l : List (Nat × α)}
    {kv : Nat × α} (hp : l.Pairwise (fun a b => a.1 ≠ b.1)) (h : kv ∈ l) :
    assocLookup l kv.1 = some kv.2 := by
  induction l with
  | nil => simp at h
  | cons kv' rest ih =>
    rcases List.pairwise_cons.mp hp with ⟨hhead, hrest⟩
    rcases List.mem_cons.mp h with rfl | h
    · simp [assocLookup]
    · have hne : kv'.1 ≠ kv.1 := hhead kv h
      simp only [assocLookup, if_neg hne]
      exact ih hrest h

/-- Helper: lookup misses when no binding carries the key. -/
theorem assocLookup_eq_none {α : Type} {l : List (Nat × α)} {k : Nat}
    (h : ∀ kv ∈ l, kv.1 ≠ k) : assocLookup l k = none := by
  induction l with
  | nil => rfl
  | cons kv rest ih =>
    simp only [assocLookup, if_neg (h kv (List.mem_cons_self _ _))]
    exact ih (fun kv' hkv' => h kv' (List.mem_cons_of_mem _ hkv'))

/-- Helper: every key of a fold of `assocInsert`s comes from the accumulator
or from the inserted keys. -/
theorem mem_foldl_assocInsert {α : Type} (g : Nat × α → Nat) :
    ∀ (l : List (Nat × α)) (acc : List (Nat × α)) (kv : Nat × α),
      kv ∈ l.foldl (fun a e => assocInsert a (g e) e.2) acc →
      kv.1 ∈ acc.map Prod.fst ∨ kv.1 ∈ l.map g := by
  intro l
  induction l with
  | nil => intro acc kv h; exact Or.inl (List.mem_map_of_mem _ h)
  | cons e rest ih =>
    intro acc kv h
    rcases ih (assocInsert acc (g e) e.2) kv h with h | h
    · rcases List.mem_map.mp h with ⟨kv', hkv', hfst⟩
      rcases mem_assocInsert hkv' with rfl | hkv'
      · exact Or.inr (by simp [hfst.symm])
      · exact Or.inl (hfst ▸ List.mem_map_of_mem _ hkv')
    · exact Or.inr (List.mem_cons_of_mem _ (by simpa using h))

/-- Helper: the live index after `reset` is the fold re-inserting the
non-freed records at `address + page_size`. -/
theorem reset_allocations (st : AllocatorState) :
    (reset st).allocations =
      (st.allocations.filter (fun kv => !kv.2.freed)).foldl
        (fun l kv => assocInsert l (kv.2.address + st.page_size) kv.2) [] := rfl

/-- Helper: `reset` does not touch the error registry. -/
theorem reset_errors (st : AllocatorState) : (reset st).errors = st.errors := rfl

/-- Helper: `release` of an untracked non-null pointer appends exactly one
`UnallocatedFree` entry and changes nothing else. -/
theorem release_not_found (st : AllocatorState) (p : Nat) (hp : p ≠ 0)
    (h : assocLookup st.allocations p = none) :
    release st p = { st with errors := st.errors ++ [.UnallocatedFree p] } := by
  unfold release
  rw [h]
  rw [if_pos hp]

/-- Helper: full characterisation of `release` on a tracked pointer. -/
theorem release_found (st : AllocatorState) (p : Nat) (m : AllocationMetadata)
    (h : assocLookup st.allocations p = some m) :
    release st p = { st with
      errors := st.errors ++ (if m.freed then [.DoubleFree p m] else [])
      allocations := assocInsert st.allocations p (releasedMeta st m)
      shadow := Allocator.poison st.shadow
        (map_to_shadow st.shadow_offset st.shadow_bit p) m.size } := by
  unfold release
  rw [h]
  cases hf : m.freed
  · simp [hf, releasedMeta]
  · simp [hf, releasedMeta]

/-- Helper: `release` preserves well-formedness of the live index. -/
theorem WF_release (st : AllocatorState) (p : Nat) (m : AllocationMetadata)
    (hwf : WF st) (h : assocLookup st.allocations p = some m) :
    WF (release st p) := by
  rw [release_found st p m h]
  constructor
  · intro kv hkv
    simp only at hkv ⊢
    rcases mem_assocInsert hkv with rfl | hkv
    · simpa [releasedMeta] using hwf.1 (p, m) (assocLookup_mem h)
    · exact hwf.1 kv hkv
  · exact pairwise_assocInsert _ _ hwf.2

/-- Helper: after `reset`, a freed record's key is gone from the live index. -/
theorem reset_lookup_none (st : AllocatorState) (p : Nat) (hwf : WF st)
    (mm : AllocationMetadata) (hl : assocLookup st.allocations p = some mm)
    (hf : mm.freed = true) :
    assocLookup (reset st).allocations p = none := by
  apply assocLookup_eq_none
  intro kv hkv
  rw [reset_allocations] at hkv
  rcases mem_foldl_assocInsert (fun kv => kv.2.address + st.page_size) _ _ kv hkv with h | h
  · simp at h
  · rcases List.mem_map.mp h with ⟨kv', hkv', heq⟩
    have hkv'mem : kv' ∈ st.allocations := List.mem_of_mem_filter hkv'
    have hkv'nf : kv'.2.freed = false := by
      simpa using List.of_mem_filter hkv'
    have hkey : kv'.1 = kv'.2.address + st.page_size := hwf.1 kv' hkv'mem
    intro hcontra
    have hlk : assocLookup st.allocations kv'.1 = some kv'.2 :=
      assocLookup_of_mem_pairwise hwf.2 hkv'mem
    rw [hkey, heq, hcontra] at hlk
    rw [hl] at hlk
    cases hlk
    rw [hf] at hkv'nf
    cases hkv'nf

/-- C4: `release(p)` is a no-op for null `p` (when `0` is untracked, as it
always is: keys are user pointers above the shadow region); for non-null
untracked `p` it appends exactly one `UnallocatedFree` and leaves the rest
of the state unchanged; for a tracked record it appends one `DoubleFree`
exactly when the record was already freed, sets `freed = true`, poisons the
shadow of `p..p+size`, and leaves `mappings` (and everything else) intact;
`release(p); release(p)` yields exactly one `DoubleFree`, and with `reset()`
in between exactly one `UnallocatedFree`. -/
theorem claim_C4_release_semantics (st : AllocatorState) (p : Nat)
    (m : AllocationMetadata) :
    (assocLookup st.allocations 0 = none → release st 0 = st) ∧
    (p ≠ 0 → assocLookup st.allocations p = none →
      release st p = { st with errors := st.errors ++ [.UnallocatedFree p] }) ∧
    (assocLookup st.allocations p = some m →
      release st p = { st with
        errors := st.errors ++ (if m.freed then [.DoubleFree p m] else [])
        allocations := assocInsert st.allocations p (releasedMeta st m)
        shadow := Allocator.poison st.shadow
          (map_to_shadow st.shadow_offset st.shadow_bit p) m.size }) ∧
    (assocLookup st.allocations p = some m → m.freed = false →
      (release (release st p) p).errors =
        st.errors ++ [.DoubleFree p (releasedMeta st m)]) ∧
    (WF st → assocLookup st.allocations p = some m → m.freed = false → p ≠ 0 →
      (release (reset (release st p)) p).errors =
        st.errors ++ [.UnallocatedFree p]) := by
  refine ⟨fun h => ?_, fun hp h => release_not_found st p hp h,
    fun h => release_found st p m h, fun h hf => ?_, fun hwf h hf hp => ?_⟩
  · unfold release
    rw [h]
    simp
  · rw [release_found st p m h]
    have h2 : assocLookup
        ({ st with
          errors := st.errors ++ (if m.freed then [.DoubleFree p m] else [])
          allocations := assocInsert st.allocations p (releasedMeta st m)
          shadow := Allocator.poison st.shadow
            (map_to_shadow st.shadow_offset st.shadow_bit p) m.size } :
          AllocatorState).allocations p = some (releasedMeta st m) := by
      simpa using assocLookup_assocInsert_self st.allocations p (releasedMeta st m)
    rw [release_found _ p _ h2]
    simp [hf, releasedMeta]
  · have hrel := release_found st p m h
    have hwf1 : WF (release st p) := WF_release st p m hwf h
    have h2 : assocLookup (release st p).allocations p = some (releasedMeta st m) := by
      rw [hrel]
      simpa using assocLookup_assocInsert_self st.allocations p (releasedMeta st m)
    have hnone : assocLookup (reset (release st p)).allocations p = none :=
      reset_lookup_none (release st p) p hwf1 (releasedMeta st m) h2 rfl
    rw [release_not_found _ p hp hnone]
    simp only [reset_errors]
    rw [hrel]
    simp [hf]

/-- Witness for `claim_C4_release_semantics` on the one-record state `stW`:
null release is a no-op, double release yields one `DoubleFree`, and with a
`reset` in between one `UnallocatedFree`. -/
theorem claim_C4_release_semantics_witness :
    assocLookup stW.allocations 0 = none ∧
    assocLookup stW.allocations (2 ^ 37 + 4096) = some mW ∧
    mW.freed = false ∧
    release stW 0 = stW ∧
    (release (release stW (2 ^ 37 + 4096)) (2 ^ 37 + 4096)).errors =
      stW.errors ++ [.DoubleFree (2 ^ 37 + 4096) (releasedMeta stW mW)] ∧
    (release (reset (release stW (2 ^ 37 + 4096))) (2 ^ 37 + 4096)).errors =
      stW.errors ++ [.UnallocatedFree (2 ^ 37 + 4096)] := by
  have hl0 : assocLookup stW.allocations 0 = none := by decide
  have hl : assocLookup stW.allocations (2 ^ 37 + 4096) = some mW := by decide
  have hf : mW.freed = false := rfl
  have hwf : WF stW := by
    constructor
    · intro kv hkv
      simp only [stW, stA, initState, mW] at hkv
      rcases List.mem_singleton.mp hkv with rfl
      rfl
    · simp [stW, stA, initState]
  exact ⟨hl0, hl, hf, (claim_C4_release_semantics stW 0 mW).1 hl0,
    (claim_C4_release_semantics stW (2 ^ 37 + 4096) mW).2.2.2.1 hl hf,
    (claim_C4_release_semantics stW (2 ^ 37 + 4096) mW).2.2.2.2 hwf hl hf
      (by norm_num)⟩

/-- Helper: after pushing `m` at key `k`, `m` is stored under `k`. -/
theorem mem_queueAt_queuePush_self (q : Queue) (k : Nat) (m : AllocationMetadata) :
    m ∈ queueAt (queuePush q k m) k := by
  induction q with
  | nil => simp [queuePush, queueAt]
  | cons e rest ih =>
    by_cases h1 : k = e.1
    · simp only [queuePush, if_pos h1, queueAt, h1.symm, if_pos rfl]
      simp
    · by_cases h2 : k < e.1
      · simp only [queuePush, if_neg h1, if_pos h2, queueAt, if_pos rfl]
        simp
      · simp only [queuePush, if_neg h1, if_neg h2, queueAt]
        exact List.mem_append_right _ ih

/-- Helper: `queuePush` never removes stored metadata. -/
theorem mem_queueAt_queuePush (q : Queue) (k k' : Nat) (m m' : AllocationMetadata)
    (h : m ∈ queueAt q k) : m ∈ queueAt (queuePush q k' m') k := by
  induction q with
  | nil => simp [queueAt] at h
  | cons e rest ih =>
    simp only [queueAt] at h
    by_cases h1 : k' = e.1
    · simp only [queuePush, if_pos h1, queueAt]
      rcases List.mem_append.mp h with h | h
      · apply List.mem_append_left
        by_cases he : e.1 = k
        · simp only [if_pos he] at h ⊢
          exact List.mem_append_left _ h
        · simp [he] at h
      · exact List.mem_append_right _ h
    · by_cases h2 : k' < e.1
      · simp only [queuePush, if_neg h1, if_pos h2, queueAt]
        exact List.mem_append_right _ h
      · simp only [queuePush, if_neg h1, if_neg h2, queueAt]
        rcases List.mem_append.mp h with h | h
        · exact List.mem_append_left _ h
        · exact List.mem_append_right _ (ih h)

/-- Helper: `poison` zeroes every byte of its target shadow range
(`size / 8` whole bytes plus the trailing partial byte). -/
theorem poison_apply_zero (mem : Mem) (s size j : Nat) (hj : j < (size + 7) / 8) :
    Allocator.poison mem s size (s + j) = 0 := by
  unfold Allocator.poison
  by_cases hrem : size % 8 > 0
  · simp only [if_pos hrem, writeByte]
    by_cases hj8 : s + j = s + size / 8
    · simp [hj8]
    · have hjlt : j < size / 8 := by omega
      simp only [if_neg hj8, fillBytes]
      rw [if_pos ⟨Nat.le_add_right _ _, by omega⟩]
  · simp only [if_neg hrem, fillBytes]
    have hjlt : j < size / 8 := by omega
    rw [if_pos ⟨Nat.le_add_right _ _, by omega⟩]

/-- Helper: `poison` writes only zeros, so a zero byte stays zero. -/
theorem poison_preserves_zero (mem : Mem) (s size a : Nat) (h : mem a = 0) :
    Allocator.poison mem s size a = 0 := by
  unfold Allocator.poison fillBytes writeByte
  split_ifs <;> simp [h]

/-- Helper: a zero byte stays zero through a fold of poisons. -/
theorem foldl_poison_preserves_zero (g : Nat × AllocationMetadata → Nat)
    (l : List (Nat × AllocationMetadata)) (mem0 : Mem) (a : Nat) (h : mem0 a = 0) :
    l.foldl (fun mem kv => Allocator.poison mem (g kv) kv.2.size) mem0 a = 0 := by
  induction l generalizing mem0 with
  | nil => exact h
  | cons e rest ih => exact ih _ (poison_preserves_zero _ _ _ _ h)

/-- Helper: after a fold of poisons, each processed record's shadow range
reads zero. -/
theorem foldl_poison_zero (g : Nat × AllocationMetadata → Nat)
    (l : List (Nat × AllocationMetadata)) (mem0 : Mem)
    (kv : Nat × AllocationMetadata) (hkv : kv ∈ l) (j : Nat)
    (hj : j < (kv.2.size + 7) / 8) :
    l.foldl (fun mem e => Allocator.poison mem (g e) e.2.size) mem0 (g kv + j) = 0 := by
  induction l generalizing mem0 with
  | nil => cases hkv
  | cons e rest ih =>
    rcases List.mem_cons.mp hkv with rfl | hkv
    · exact foldl_poison_preserves_zero g rest _ _ (poison_apply_zero _ _ _ _ hj)
    · exact ih _ hkv

/-- Helper: queue membership is preserved along the `reset` fold. -/
theorem mem_queueAt_foldl_mono (l : List (Nat × AllocationMetadata)) (q : Queue)
    (m : AllocationMetadata) (k : Nat) (h : m ∈ queueAt q k) :
    m ∈ queueAt
      (l.foldl (fun q e => queuePush q e.2.actual_size (resetQueueMeta e.2)) q) k := by
  induction l generalizing q with
  | nil => exact h
  | cons e rest ih => exact ih _ (mem_queueAt_queuePush _ _ _ _ _ h)

/-- Helper: every record processed by the `reset` fold ends up in the queue
under its `actual_size`. -/
theorem mem_queueAt_foldl (l : List (Nat × AllocationMetadata)) (q : Queue)
    (kv : Nat × AllocationMetadata) (h : kv ∈ l) :
    resetQueueMeta kv.2 ∈ queueAt
      (l.foldl (fun q e => queuePush q e.2.actual_size (resetQueueMeta e.2)) q)
      kv.2.actual_size := by
  induction l generalizing q with
  | nil => cases h
  | cons e rest ih =>
    rcases List.mem_cons.mp h with rfl | h
    · exact mem_queueAt_foldl_mono rest _ _ _ (mem_queueAt_queuePush_self _ _ _)
    · exact ih _ h

/-- Helper: inserting under a different key does not change a lookup. -/
theorem assocLookup_assocInsert_ne {α : Type} (l : List (Nat × α)) (k k' : Nat)
    (v : α) (h : k' ≠ k) :
    assocLookup (assocInsert l k' v) k = assocLookup l k := by
  induction l with
  | nil => simp [assocInsert, assocLookup, h]
  | cons kv rest ih =>
    by_cases hk : kv.1 = k'
    · have hne : kv.1 ≠ k := by rw [hk]; exact h
      simp only [assocInsert, if_pos hk, assocLookup, if_neg h, if_neg hne]
    · simp only [assocInsert, if_neg hk, assocLookup, ih]

/-- Helper: a fold of inserts under keys all different from `k` does not
change the lookup at `k`. -/
theorem assocLookup_foldl_of_ne {α : Type} (l : List (Nat × α)) (acc : List (Nat × α))
    (k : Nat) (h : ∀ e ∈ l, e.1 ≠ k) :
    assocLookup (l.foldl (fun a e => assocInsert a e.1 e.2) acc) k =
      assocLookup acc k := by
  induction l generalizing acc with
  | nil => rfl
  | cons e rest ih =>
    rw [List.foldl_cons, ih _ (fun e' he' => h e' (List.mem_cons_of_mem _ he')),
      assocLookup_assocInsert_ne _ _ _ _ (h e (List.mem_cons_self _ _))]

/-- Helper: folding distinct-keyed bindings into any accumulator makes each
of them retrievable. -/
theorem assocLookup_foldl_self {α : Type} (l : List (Nat × α)) (acc : List (Nat × α))
    (hp : l.Pairwise (fun a b => a.1 ≠ b.1)) (kv : Nat × α) (h : kv ∈ l) :
    assocLookup (l.foldl (fun a e => assocInsert a e.1 e.2) acc) kv.1 = some kv.2 := by
  induction l generalizing acc with
  | nil => cases h
  | cons e rest ih =>
    rcases List.pairwise_cons.mp hp with ⟨hhead, hrest⟩
    rcases List.mem_cons.mp h with rfl | h
    · rw [List.foldl_cons,
        assocLookup_foldl_of_ne rest _ kv.1 (fun e' he' => (hhead e' he').symm)]
      exact assocLookup_assocInsert_self _ _ _
    · exact ih _ hrest h

/-- Helper: every binding of a fold of `assocInsert`s comes from the
accumulator or is one of the inserted pairs. -/
theorem mem_foldl_assocInsert_val {α : Type} (g : Nat × α → Nat) :
    ∀ (l acc : List (Nat × α)) (kv : Nat × α),
      kv ∈ l.foldl (fun a e => assocInsert a (g e) e.2) acc →
      kv ∈ acc ∨ ∃ e ∈ l, kv = (g e, e.2) := by
  intro l
  induction l with
  | nil => intro acc kv h; exact Or.inl h
  | cons e rest ih =>
    intro acc kv h
    rcases ih _ kv h with h | ⟨e', he', rfl⟩
    · rcases mem_assocInsert h with rfl | h
      · exact Or.inr ⟨e, List.mem_cons_self _ _, rfl⟩
      · exact Or.inl h
    · exact Or.inr ⟨e', List.mem_cons_of_mem _ he', rfl⟩

/-- Helper: the reuse queue after `reset` is the fold of pushes of the freed
records. -/
theorem reset_queue_eq (st : AllocatorState) :
    (reset st).allocation_queue =
      (st.allocations.filter (fun kv => kv.2.freed)).foldl
        (fun q kv => queuePush q kv.2.actual_size (resetQueueMeta kv.2))
        st.allocation_queue := rfl

/-- Helper: the shadow after `reset` is the fold of poisons of the freed
records' ranges. -/
theorem reset_shadow_eq (st : AllocatorState) :
    (reset st).shadow =
      (st.allocations.filter (fun kv => kv.2.freed)).foldl
        (fun mem kv => Allocator.poison mem
          (map_to_shadow st.shadow_offset st.shadow_bit kv.1) kv.2.size)
        st.shadow := rfl

/-- C5: after `reset()` on a well-formed allocator: no record of the live
index is marked freed; the total-allocation counter is 0; every record that
was freed is migrated into the size-keyed reuse queue (key `actual_size`)
with `size = 0` and `freed = false` and every byte of its shadow range
re-poisoned to `0x00`; and every record that was not freed is retrievable
at its key, unchanged. -/
theorem claim_C5_reset_invariants (st : AllocatorState) (hwf : WF st) :
    (∀ kv ∈ (reset st).allocations, kv.2.freed = false) ∧
    (reset st).total_allocation_size = 0 ∧
    (∀ kv ∈ st.allocations, kv.2.freed = true →
      resetQueueMeta kv.2 ∈ queueAt (reset st).allocation_queue kv.2.actual_size ∧
      (resetQueueMeta kv.2).size = 0 ∧
      (resetQueueMeta kv.2).freed = false ∧
      (∀ j < (kv.2.size + 7) / 8,
        (reset st).shadow
          (map_to_shadow st.shadow_offset st.shadow_bit kv.1 + j) = 0)) ∧
    (∀ kv ∈ st.allocations, kv.2.freed = false →
      assocLookup (reset st).allocations kv.1 = some kv.2) := by
  refine ⟨?_, rfl, ?_, ?_⟩
  · intro kv hkv
    rw [reset_allocations] at hkv
    rcases mem_foldl_assocInsert_val (fun kv => kv.2.address + st.page_size)
        _ _ kv hkv with h | ⟨e, he, rfl⟩
    · simp at h
    · simpa using List.of_mem_filter he
  · intro kv hkv hf
    have hmem : kv ∈ st.allocations.filter (fun kv => kv.2.freed) :=
      List.mem_filter.mpr ⟨hkv, by simp [hf]⟩
    refine ⟨?_, rfl, rfl, ?_⟩
    · rw [reset_queue_eq]
      exact mem_queueAt_foldl _ _ kv hmem
    · intro j hj
      rw [reset_shadow_eq]
      exact foldl_poison_zero
        (fun kv => map_to_shadow st.shadow_offset st.shadow_bit kv.1)
        _ _ kv hmem j hj
  · intro kv hkv hnf
    rw [reset_allocations]
    have hmem : kv ∈ st.allocations.filter (fun kv => !kv.2.freed) :=
      List.mem_filter.mpr ⟨hkv, by simp [hnf]⟩
    have hkeys : ∀ e ∈ st.allocations.filter (fun kv => !kv.2.freed),
        e.2.address + st.page_size = e.1 :=
      fun e he => (hwf.1 e (List.mem_of_mem_filter he)).symm
    rw [List.foldl_ext
      (fun (a : List (Nat × AllocationMetadata)) (e : Nat × AllocationMetadata) =>
        assocInsert a (e.2.address + st.page_size) e.2)
      (fun (a : List (Nat × AllocationMetadata)) (e : Nat × AllocationMetadata) =>
        assocInsert a e.1 e.2) []
      (fun a e he =>
        show assocInsert a (e.2.address + st.page_size) e.2 =
          assocInsert a e.1 e.2 from by rw [hkeys e he])]
    exact assocLookup_foldl_self _ _ (List.Pairwise.filter _ hwf.2) kv hmem

/-- Witness for `claim_C5_reset_invariants` on `stV` (one freed record `mV`,
one live record `mW16`). -/
theorem claim_C5_reset_invariants_witness :
    WF stV ∧
    (∀ kv ∈ (reset stV).allocations, kv.2.freed = false) ∧
    (reset stV).total_allocation_size = 0 ∧
    resetQueueMeta mV ∈ queueAt (reset stV).allocation_queue 12288 ∧
    (reset stV).shadow
      (map_to_shadow stV.shadow_offset stV.shadow_bit (2 ^ 37 + 4096) + 0) = 0 ∧
    assocLookup (reset stV).allocations (2 ^ 37 + 20480) = some mW16 := by
  have hwf : WF stV := by
    constructor
    · intro kv hkv
      simp only [stV, stA, initState, List.mem_cons, List.not_mem_nil,
        or_false] at hkv
      rcases hkv with rfl | rfl
      · rfl
      · rfl
    · simp [stV, stA, initState, mV, mW16]
  have hm1 : ((2 ^ 37 + 4096 : Nat), mV) ∈ stV.allocations := List.mem_cons_self _ _
  have hm2 : ((2 ^ 37 + 20480 : Nat), mW16) ∈ stV.allocations :=
    List.mem_cons_of_mem _ (List.mem_cons_self _ _)
  have C5 := claim_C5_reset_invariants stV hwf
  refine ⟨hwf, C5.1, C5.2.1, ?_, ?_, ?_⟩
  · exact (C5.2.2.1 ((2 ^ 37 + 4096 : Nat), mV) hm1 rfl).1
  · exact (C5.2.2.1 ((2 ^ 37 + 4096 : Nat), mV) hm1 rfl).2.2.2 0 (by norm_num [mV])
  · exact C5.2.2.2 ((2 ^ 37 + 20480 : Nat), mW16) hm2 rfl

/-- Helper: one `find_metadata` scan step in closed form — the record is
taken exactly when its distance strictly improves on the accumulator, and
the `hint_base` comparison does not change the outcome. -/
theorem find_metadata_step_eq (ptr hint : Nat)
    (acc : Int × Option AllocationMetadata) (m : AllocationMetadata) :
    find_metadata_step ptr hint acc m =
      if addrDist ptr m.address < acc.1
      then (addrDist ptr m.address, some m) else acc := by
  unfold find_metadata_step addrDist
  by_cases hc : hint = m.address
  · simp only [if_pos hc]
  · simp only [if_neg hc]
    by_cases hlt : i64abs (i64val ptr - i64val m.address) < acc.1
    · rw [if_pos (by rw [min_lt_iff]; exact Or.inr hlt), min_eq_right hlt.le,
        if_pos hlt]
    · rw [if_neg (by rw [min_lt_iff]; exact fun h => h.elim (lt_irrefl _) hlt),
        if_neg hlt]

/-- Helper: the `find_metadata` fold either returns its accumulator
untouched or yields a scanned record realising the running minimum, which
is a lower bound on every scanned record's distance. -/
theorem find_metadata_fold_spec (ptr hint : Nat) :
    ∀ (ms : List AllocationMetadata) (acc : Int × Option AllocationMetadata),
      (ms.foldl (find_metadata_step ptr hint) acc = acc ∨
        ∃ m ∈ ms, (ms.foldl (find_metadata_step ptr hint) acc).2 = some m ∧
          (ms.foldl (find_metadata_step ptr hint) acc).1 = addrDist ptr m.address) ∧
      (ms.foldl (find_metadata_step ptr hint) acc).1 ≤ acc.1 ∧
      (∀ m ∈ ms, (ms.foldl (find_metadata_step ptr hint) acc).1 ≤
        addrDist ptr m.address) := by
  intro ms
  induction ms with
  | nil =>
    intro acc
    exact ⟨Or.inl rfl, le_refl _, by simp⟩
  | cons m0 rest ih =>
    intro acc
    rw [List.foldl_cons, find_metadata_step_eq]
    by_cases hlt : addrDist ptr m0.address < acc.1
    · rw [if_pos hlt]
      obtain ⟨hor, hle, hall⟩ := ih (addrDist ptr m0.address, some m0)
      refine ⟨?_, le_trans hle hlt.le, fun m hm => ?_⟩
      · rcases hor with heq | ⟨m, hm, hsome, hfst⟩
        · right
          exact ⟨m0, List.mem_cons_self _ _, by rw [heq], by rw [heq]⟩
        · right
          exact ⟨m, List.mem_cons_of_mem _ hm, hsome, hfst⟩
      · rcases List.mem_cons.mp hm with rfl | hm
        · exact hle
        · exact hall m hm
    · rw [if_neg hlt]
      obtain ⟨hor, hle, hall⟩ := ih acc
      refine ⟨?_, hle, fun m hm => ?_⟩
      · rcases hor with heq | ⟨m, hm, hsome, hfst⟩
        · exact Or.inl heq
        · exact Or.inr ⟨m, List.mem_cons_of_mem _ hm, hsome, hfst⟩
      · rcases List.mem_cons.mp hm with rfl | hm
        · exact le_trans hle (not_lt.mp hlt)
        · exact hall m hm

/-- Helper: membership through stable insertion. -/
theorem mem_insertByAddress (m x : AllocationMetadata)
    (l : List AllocationMetadata) :
    x ∈ insertByAddress m l ↔ x = m ∨ x ∈ l := by
  induction l with
  | nil => simp [insertByAddress]
  | cons y ys ih =>
    by_cases h : m.address ≤ y.address
    · simp [insertByAddress, h, List.mem_cons]
    · simp only [insertByAddress, if_neg h, List.mem_cons, ih]
      tauto

/-- Helper: sorting by address preserves membership. -/
theorem mem_sortByAddress (x : AllocationMetadata) (l : List AllocationMetadata) :
    x ∈ sortByAddress l ↔ x ∈ l := by
  induction l with
  | nil => simp [sortByAddress]
  | cons y ys ih =>
    simp only [sortByAddress, mem_insertByAddress, List.mem_cons, ih]

/-- Helper: only the empty list sorts to the empty list. -/
theorem sortByAddress_eq_nil (l : List AllocationMetadata)
    (h : sortByAddress l = []) : l = [] := by
  cases l with
  | nil => rfl
  | cons y ys =>
    exfalso
    have : y ∈ sortByAddress (y :: ys) := (mem_sortByAddress _ _).mpr
      (List.mem_cons_self _ _)
    rw [h] at this
    cases this

/-- Helper: `usize as i64` is the identity below `2^63`. -/
theorem i64val_small (n : Nat) (h : n < 2 ^ 63) : i64val n = (n : Int) := by
  unfold i64val
  rw [Nat.mod_eq_of_lt (by omega)]
  rw [if_pos h]

/-- Helper: distances between addresses below `2^62` stay below
`i64::MAX`. -/
theorem addrDist_small (p a : Nat) (hp : p < 2 ^ 62) (ha : a < 2 ^ 62) :
    addrDist p a < 2 ^ 63 - 1 := by
  unfold addrDist i64abs
  rw [i64val_small p (by omega), i64val_small a (by omega)]
  have hp' : (p : Int) < 2 ^ 62 := by exact_mod_cast hp
  have ha' : (a : Int) < 2 ^ 62 := by exact_mod_cast ha
  have hp0 : (0 : Int) ≤ (p : Int) := Int.natCast_nonneg p
  have ha0 : (0 : Int) ≤ (a : Int) := Int.natCast_nonneg a
  split_ifs <;> omega

/-- C8 (amended): for addresses below `2^62` (no `i64` overflow),
`find_metadata(ptr, hint_base)` returns a tracked record whose address
minimises `|ptr − address|` over all tracked records — but the `hint_base`
argument has no effect on the result whatsoever: the hint branch of the
scan updates under exactly the same condition and to exactly the same
value as the ordinary branch. -/
theorem claim_C8_amended (st : AllocatorState) (ptr h1 h2 hint : Nat)
    (hptr : ptr < 2 ^ 62)
    (haddr : ∀ kv ∈ st.allocations, kv.2.address < 2 ^ 62) :
    find_metadata st ptr h1 = find_metadata st ptr h2 ∧
    (st.allocations ≠ [] →
      ∃ m, find_metadata st ptr hint = some m ∧
        (∃ kv ∈ st.allocations, kv.2 = m) ∧
        ∀ kv ∈ st.allocations,
          addrDist ptr m.address ≤ addrDist ptr kv.2.address) := by
  constructor
  · simp only [find_metadata]
    have hext : ∀ (acc : Int × Option AllocationMetadata)
        (m : AllocationMetadata),
        find_metadata_step ptr h1 acc m = find_metadata_step ptr h2 acc m := by
      intro acc m
      rw [find_metadata_step_eq, find_metadata_step_eq]
    rw [List.foldl_ext _ _ _ (fun acc m _ => hext acc m)]
  · intro hne
    obtain ⟨hor, _, hall⟩ := find_metadata_fold_spec ptr hint
      (sortByAddress (st.allocations.map (fun kv => kv.2)))
      ((2 : Int) ^ 63 - 1, none)
    have hmem : ∀ m ∈ sortByAddress (st.allocations.map (fun kv => kv.2)),
        ∃ kv ∈ st.allocations, kv.2 = m := by
      intro m hm
      rcases List.mem_map.mp ((mem_sortByAddress _ _).mp hm) with ⟨kv, hkv, rfl⟩
      exact ⟨kv, hkv, rfl⟩
    rcases hor with heq | ⟨m, hm, hsome, hfst⟩
    · exfalso
      cases hl : st.allocations with
      | nil => exact hne hl
      | cons kv rest =>
        have hkv : kv.2 ∈ sortByAddress (st.allocations.map (fun kv => kv.2)) := by
          rw [mem_sortByAddress]
          exact List.mem_map_of_mem _ (hl ▸ List.mem_cons_self _ _)
        have hlt := hall kv.2 hkv
        rw [heq] at hlt
        have hsmall : addrDist ptr kv.2.address < 2 ^ 63 - 1 :=
          addrDist_small _ _ hptr
            (haddr kv (hl ▸ List.mem_cons_self _ _))
        simp only at hlt
        omega
    · refine ⟨m, ?_, hmem m hm, fun kv hkv => ?_⟩
      · simp only [find_metadata]
        exact hsome
      · have hkvmem : kv.2 ∈ sortByAddress (st.allocations.map (fun kv => kv.2)) := by
          rw [mem_sortByAddress]
          exact List.mem_map_of_mem _ hkv
        have := hall kv.2 hkvmem
        rw [hfst] at this
        exact this

/-- C8 (counterexample): records at addresses 1000 and 2000, `ptr = 1000`,
`hint_base = 2000`.  A record with address equal to the hint exists, yet
`find_metadata` returns the record at 1000 (the distance minimiser), not the
hinted one — the hint branch is dead logic. -/
theorem claim_C8_counterexample :
    (stC8.allocations.map (fun kv => kv.2.address)).contains 2000 = true ∧
    (find_metadata stC8 1000 2000).map (fun m => m.address) = some 1000 :=
  ⟨rfl, by decide⟩

/-- Witness for `claim_C8_amended` on `stC8`: two different hints give the
same result, and the result minimises the distance. -/
theorem claim_C8_amended_witness :
    find_metadata stC8 1000 7 = find_metadata stC8 1000 9 ∧
    ∃ m, find_metadata stC8 1000 0 = some m ∧
      (∃ kv ∈ stC8.allocations, kv.2 = m) ∧
      ∀ kv ∈ stC8.allocations,
        addrDist 1000 m.address ≤ addrDist 1000 kv.2.address := by
  have haddr : ∀ kv ∈ stC8.allocations, kv.2.address < 2 ^ 62 := by decide
  exact ⟨(claim_C8_amended stC8 1000 7 9 0 (by norm_num) haddr).1,
    (claim_C8_amended stC8 1000 7 9 0 (by norm_num) haddr).2 (by decide)⟩

/-- Helper: symbolic evaluation of `alloc(s)` on the fresh allocator. -/
theorem c6_alloc_fresh (s : Nat) (h1 : 1 ≤ s) (h2 : s ≤ 2 ^ 40) :
    alloc stA s 8 = (.ptr (2 ^ 37 + 4096), c6St1 s) := by
  have h0 : ¬ (s = 0) := by omega
  have hmax : ¬ (1099511627776 < s) := by omega
  have hdivle : s / 4096 * 4096 ≤ s := Nat.div_mul_le_self _ _
  have htot : ¬ (1125899906842624 < (s / 4096 + 1) * 4096 + 8192) := by omega
  simp [alloc, stA, initState, optsA, round_up_to_page, c6St1, c6Meta,
    AllocationMetadata.default, find_smallest_fit, assocInsert,
    h0, hmax, htot]

/-- Helper: symbolic evaluation of the `release` step of the round trip. -/
theorem c6_release (s : Nat) :
    release (c6St1 s) (2 ^ 37 + 4096) = c6St2 s := by
  rw [release_found (c6St1 s) _ (c6Meta s) (by simp [c6St1, assocLookup])]
  simp [c6St2, c6St1, c6MetaF, c6Meta, releasedMeta, assocInsert, stA,
    initState, optsA, AllocationMetadata.default]

/-- Helper: symbolic evaluation of the `reset` step of the round trip. -/
theorem c6_reset (s : Nat) : reset (c6St2 s) = c6St3 s := by
  simp [reset, c6St2, c6St3, c6St1, c6MetaF, c6MetaR, c6Meta, queuePush,
    resetQueueMeta, stA, initState, optsA, AllocationMetadata.default,
    assocInsert]

/-- Helper: the second `alloc` finds the recycled mapping whenever its
rounded size fits, and returns the original user pointer. -/
theorem c6_alloc_reuse (s s' : Nat) (h1 : 1 ≤ s') (h2 : s' ≤ 2 ^ 40)
    (hfit : s' / 4096 ≤ s / 4096) :
    (alloc (c6St3 s) s' 8).1 = .ptr (2 ^ 37 + 4096) := by
  have h0 : ¬ (s' = 0) := by omega
  have hmax : ¬ (1099511627776 < s') := by omega
  have hdivle : s' / 4096 * 4096 ≤ s' := Nat.div_mul_le_self _ _
  have htot : ¬ (1125899906842624 < (s' / 4096 + 1) * 4096 + 8192) := by omega
  have hle : (s' / 4096 + 1) * 4096 + 8192 ≤ (s / 4096 + 1) * 4096 + 8192 := by
    have : s' / 4096 * 4096 ≤ s / 4096 * 4096 := Nat.mul_le_mul_right _ hfit
    omega
  have hfs : find_smallest_fit [((s / 4096 + 1) * 4096 + 8192, [c6MetaR s])]
      ((s' / 4096 + 1) * 4096 + 8192) =
      (some (c6MetaR s), [((s / 4096 + 1) * 4096 + 8192, [])]) := by
    simp [find_smallest_fit, hle]
  simp only [c6St3, c6St2, c6St1, stA, initState, optsA]
  simp [alloc, round_up_to_page, h0, hmax, htot, hfs]
  simp [c6MetaR, AllocationMetadata.default]

/-- C6 (amended): on the fresh allocator, `alloc(s); release(p); reset();
alloc(s')` returns the same user pointer — hence reuses the same raw
mapping (stable `address - page_size`) — whenever `s' < rounded(s)`, the
strict version of the claimed `s' ≤ rounded(s)`: the reuse search compares
`round_up_to_page(s') + 2 pages` against the queued
`round_up_to_page(s) + 2 pages`, and `round_up_to_page` rounds
`rounded(s)` itself up to the next page, so equality fails at the
boundary. -/
theorem claim_C6_amended (s s' : Nat) (hs1 : 1 ≤ s) (hs2 : s ≤ 2 ^ 40)
    (ht1 : 1 ≤ s') (ht2 : s' ≤ 2 ^ 40) (hlt : s' < round_up_to_page stA s) :
    (alloc stA s 8).1 = .ptr (2 ^ 37 + 4096) ∧
    (alloc (reset (release (alloc stA s 8).2 (2 ^ 37 + 4096))) s' 8).1 =
      .ptr (2 ^ 37 + 4096) := by
  have hru : round_up_to_page stA s = (s / 4096 + 1) * 4096 := by
    simp [round_up_to_page, stA, initState]
  have hfit : s' / 4096 ≤ s / 4096 := by
    have h4096 : (0 : Nat) < 4096 := by norm_num
    have hs'lt : s' < (s / 4096 + 1) * 4096 := by rw [← hru]; exact hlt
    have := (Nat.div_lt_iff_lt_mul h4096).mpr hs'lt
    omega
  rw [c6_alloc_fresh s hs1 hs2]
  exact ⟨rfl, by
    rw [c6_release, c6_reset]
    exact c6_alloc_reuse s s' ht1 ht2 hfit⟩

/-- Witness for `claim_C6_amended`: `s = 1`, `s' = 4095 < rounded(1) = 4096`
reuses the mapping and returns the same pointer. -/
theorem claim_C6_amended_witness :
    (4095 : Nat) < round_up_to_page stA 1 ∧
    (alloc stA 1 8).1 = .ptr (2 ^ 37 + 4096) ∧
    (alloc (reset (release (alloc stA 1 8).2 (2 ^ 37 + 4096))) 4095 8).1 =
      .ptr (2 ^ 37 + 4096) := by
  have h := claim_C6_amended 1 4095 (by norm_num) (by norm_num) (by norm_num)
    (by norm_num) (by decide)
  exact ⟨by decide, h.1, h.2⟩

/-- C6 (counterexample): with `s = 1` (so `rounded(s) = 4096`) and
`s' = 4096 = rounded(s)`, the boundary case of the claim, the fourth step
allocates a fresh mapping at `2^37 + 16384` instead of reusing the raw
mapping at `2^37`: `find_smallest_fit` needs
`round_up_to_page(4096) + 2 pages = 16384`, but the recycled mapping's
`actual_size` is only `12288`. -/
theorem claim_C6_counterexample :
    (alloc stA 1 8).1 = .ptr (2 ^ 37 + 4096) ∧
    round_up_to_page stA 1 = 4096 ∧
    (alloc (reset (release (alloc stA 1 8).2 (2 ^ 37 + 4096))) 4096 8).1 =
      .ptr (2 ^ 37 + 20480) ∧
    ((2 ^ 37 + 20480 : Nat) - 4096 ≠ (2 ^ 37 + 4096 : Nat) - 4096) :=
  ⟨rfl, rfl, rfl, by decide⟩

end LibaflFrida
